import Mathlib

/-!
# Unify_Link protocol engine: formal model and verification

This file embeds, in Lean 4, the frame-parsing code of the Unify_Link
repository (`src/tools/Unify_link_monitor.py`, function `parse_frames`,
mirrored by `serial_reader` in `src/example/python/motor_test.py`)
together with a model of the protocol engine (`UnifyLinkBase` of the
`unify_link` module) whose implementation is not part of the repository
sources: the engine model is built from the specification's wire format,
state machine, dispatch, queue and statistics descriptions.

Bytes are modelled as natural numbers (a real byte is `< 256`; the
parser code itself never relies on that bound, so definitions take
plain `Nat` lists and theorems add bounds only where the property
needs them).
-/

namespace UnifyLink

/-- Model of Python `bytearray.find(bytes([hdr]))`: the index of the first
occurrence of byte `hdr` in the buffer, `none` standing for Python's `-1`. -/
def findSync (hdr : Nat) : List Nat → Option Nat
  | [] => none
  | b :: rest => if b = hdr then some 0 else (findSync hdr rest).map (· + 1)

/-- The payload-length field as the monitor's `parse_frames` reads it:
`int.from_bytes(buffer[4:6], "little") & 0x1FFF`, i.e. the little-endian
16-bit word at byte offsets 4–5 masked to its low 13 bits. -/
def payload_len (b : List Nat) : Nat :=
  (b.getD 4 0 + 256 * b.getD 5 0) &&& 8191

/-- The per-frame record `parse_frames` emits (`FrameInfo` in
`Unify_link_monitor.py`; the wall-clock timestamp field `ts` is omitted). -/
structure FrameInfo where
  comp_id : Nat
  data_id : Nat
  length : Nat
deriving DecidableEq, Repr

/-- Embedding of `parse_frames` from `src/tools/Unify_link_monitor.py`:
repeatedly scan for the sync byte, drop leading garbage (`del buffer[:idx]`),
clear everything when no sync byte exists, stop on an incomplete frame
(fewer than 8 bytes, or fewer than `8 + payload_len` bytes), and otherwise
emit a `FrameInfo` and consume `8 + payload_len` bytes.  The Python
function mutates the buffer in place; here the residual buffer is returned
as the second component. -/
def parse_frames (hdr : Nat) (buf : List Nat) : List FrameInfo × List Nat :=
  match findSync hdr buf with
  | none => ([], [])
  | some idx =>
    if h8 : (buf.drop idx).length < 8 then ([], buf.drop idx)
    else
      if hfl : (buf.drop idx).length < 8 + payload_len (buf.drop idx) then
        ([], buf.drop idx)
      else
        let res := parse_frames hdr ((buf.drop idx).drop (8 + payload_len (buf.drop idx)))
        (⟨(buf.drop idx).getD 2 0, (buf.drop idx).getD 3 0, payload_len (buf.drop idx)⟩ :: res.1,
          res.2)
termination_by buf.length
decreasing_by
  simp only [List.length_drop] at h8 ⊢
  omega

/-! ## The protocol engine

The `unify_link` engine itself (`UnifyLinkBase` with `build_send_data`,
`pop_send_buffer`, `rev_data_push`, `parse_data_task`, the dispatch
registry and the three statistics counters) is a native module whose
sources are not part of this repository; the definitions below are
built from the specification (wire format §6, codec §4.1, receive
state machine §4.2, dispatch §4.3, send queue §4.4, statistics §4.5). -/

/-- Modelled from the spec: the wire format of §6 — the missing engine's
frame encoder.  An 8-byte header `sync, seq, comp, data, 16-bit
little-endian length word (low 13 bits = payload length, high bits
reserved as zero), flags, reserved` followed by the payload verbatim;
total length `8 + payload.length`. -/
def encode (hdr seq comp data flags : Nat) (payload : List Nat) : List Nat :=
  hdr :: seq % 256 :: comp % 256 :: data % 256 ::
    payload.length % 256 :: payload.length / 256 :: flags % 256 :: 0 :: payload

/-- A decoded frame (spec §3): header fields plus the payload bytes. -/
structure Frame where
  seq_id : Nat
  comp_id : Nat
  data_id : Nat
  flags : Nat
  payload : List Nat
deriving DecidableEq, Repr

/-- Result of `try_decode` (spec §4.1). -/
inductive DecodeResult where
  | ok (f : Frame) (consumed : Nat)
  | incomplete
  | invalid
deriving DecidableEq, Repr

/-- Modelled from the spec: `try_decode` of §4.1 — the missing engine's
frame decoder over a byte window.  `invalid` when the first byte is not
the sync marker, `incomplete` when fewer than 8 bytes are available or
the declared payload is longer than the window, otherwise the parsed
frame together with exactly `8 + payload_length` consumed bytes. -/
def try_decode (hdr : Nat) (w : List Nat) : DecodeResult :=
  if w = [] then .incomplete
  else if w.getD 0 0 ≠ hdr then .invalid
  else if w.length < 8 then .incomplete
  else if w.length < 8 + payload_len w then .incomplete
  else
    .ok ⟨w.getD 1 0, w.getD 2 0, w.getD 3 0, w.getD 6 0, (w.drop 8).take (payload_len w)⟩
      (8 + payload_len w)

/-- A dispatch-registry entry (spec §4.3): a typed decoder expecting a
fixed payload size, or a wildcard observer accepting any payload. -/
inductive RegEntry where
  | typed (size : Nat)
  | anyPayload
deriving DecidableEq, Repr

/-- Modelled from the spec: the state of one engine instance
(`UnifyLinkBase`), whose implementation is not in the repository —
configuration, sequence counter, dispatch registry, per-key cached
component state, bounded send queue, receive accumulator, the log of
callback invocations, and the three statistics counters of §4.5. -/
structure Engine where
  hdr : Nat
  max_payload : Nat
  max_queue_bytes : Nat
  seq_id : Nat
  registry : Nat → Nat → Option RegEntry
  comp_state : Nat → Nat → Option (List Nat)
  send_queue : List (List Nat)
  rx_accum : List Nat
  events : List (Nat × Nat × List Nat)
  success_count : Nat
  transport_error_count : Nat
  decode_error_count : Nat

/-- Modelled from the spec: `register` of §4.3 — idempotent upsert of the
registry entry for `(comp, data)`; last registration wins. -/
def Engine.register (e : Engine) (comp data : Nat) (ent : RegEntry) : Engine :=
  { e with registry := fun c d => if c = comp ∧ d = data then some ent else e.registry c d }

/-- Modelled from the spec: `register_any` of §4.3 (exposed to Python as
`register_any_payload`) — installs the wildcard observer. -/
def Engine.register_any_payload (e : Engine) (comp data : Nat) : Engine :=
  e.register comp data .anyPayload

/-- Total bytes currently occupying the send queue. -/
def Engine.queue_bytes (e : Engine) : Nat :=
  (e.send_queue.map List.length).sum

/-- Result of `encode_and_enqueue` (spec §4.4 / §7). -/
inductive BuildResult where
  | accepted
  | payloadTooLarge
  | queueFull
deriving DecidableEq, Repr

/-- Modelled from the spec: `encode_and_enqueue` (exposed to Python as
`build_send_data`) — reject with `PayloadTooLarge` when the payload
exceeds the configured maximum, reject with `QueueFull` when appending
the encoded frame would exceed the queue byte budget, otherwise append
the encoded frame at the tail and step the 8-bit sequence counter. -/
def Engine.build_send_data (e : Engine) (comp data : Nat) (payload : List Nat) :
    Engine × BuildResult :=
  if e.max_payload < payload.length then (e, .payloadTooLarge)
  else
    let fr := encode e.hdr e.seq_id comp data 0 payload
    if e.max_queue_bytes < e.queue_bytes + fr.length then (e, .queueFull)
    else
      ({ e with send_queue := e.send_queue ++ [fr], seq_id := (e.seq_id + 1) % 256 },
        .accepted)

/-- Modelled from the spec: `drain_outbound` (exposed to Python as
`pop_send_buffer`) — remove and return all currently queued bytes in
FIFO order. -/
def Engine.pop_send_buffer (e : Engine) : List Nat × Engine :=
  (e.send_queue.flatten, { e with send_queue := [] })

/-- Modelled from the spec: `push_received_bytes` (exposed to Python as
`rev_data_push`) — append raw bytes to the receive accumulator. -/
def Engine.rev_data_push (e : Engine) (bs : List Nat) : Engine :=
  { e with rx_accum := e.rx_accum ++ bs }

/-- Modelled from the spec: `dispatch` of §4.3 — look up
`(comp, data)`; an unregistered key or a typed entry whose expected
size differs from the payload length is a decode error; otherwise the
cached component state is updated (typed entries only), the callback is
invoked (recorded in `events`) and `success_count` is stepped. -/
def Engine.dispatch (e : Engine) (comp data : Nat) (payload : List Nat) : Engine :=
  match e.registry comp data with
  | none => { e with decode_error_count := e.decode_error_count + 1 }
  | some (.typed sz) =>
    if payload.length = sz then
      { e with
        comp_state := fun c d => if c = comp ∧ d = data then some payload else e.comp_state c d,
        events := e.events ++ [(comp, data, payload)],
        success_count := e.success_count + 1 }
    else { e with decode_error_count := e.decode_error_count + 1 }
  | some .anyPayload =>
    { e with events := e.events ++ [(comp, data, payload)],
             success_count := e.success_count + 1 }

/-- Outcome of one receive-synchronizer pass over the accumulator
(spec §4.2): the complete frames found (component id, data id, payload),
the residual accumulator, and how many garbage discards occurred. -/
structure ParseOut where
  frames : List (Nat × Nat × List Nat)
  residual : List Nat
  transport_errors : Nat
deriving DecidableEq, Repr

/-- Modelled from the spec: the receive synchronizer of §4.2, the pure
core of the missing engine's parse pass (same loop shape as the
repository's `parse_frames`).  Scan for the sync byte: none found in a
non-empty accumulator discards everything (one transport error); found
with leading garbage discards the garbage (one transport error); an
incomplete frame waits; a complete frame is extracted, its
`8 + payload_length` bytes consumed, and scanning continues. -/
def parse_stream (hdr : Nat) (buf : List Nat) : ParseOut :=
  match findSync hdr buf with
  | none => if buf.isEmpty then ⟨[], [], 0⟩ else ⟨[], [], 1⟩
  | some idx =>
    let gerr := if idx = 0 then 0 else 1
    if h8 : (buf.drop idx).length < 8 then ⟨[], buf.drop idx, gerr⟩
    else
      if hfl : (buf.drop idx).length < 8 + payload_len (buf.drop idx) then
        ⟨[], buf.drop idx, gerr⟩
      else
        let res := parse_stream hdr ((buf.drop idx).drop (8 + payload_len (buf.drop idx)))
        ⟨((buf.drop idx).getD 2 0, (buf.drop idx).getD 3 0,
            ((buf.drop idx).drop 8).take (payload_len (buf.drop idx))) :: res.frames,
          res.residual, gerr + res.transport_errors⟩
termination_by buf.length
decreasing_by
  simp only [List.length_drop] at h8 ⊢
  omega

/-- Dispatch every extracted frame in order (spec §4.2: attempt dispatch,
return to scanning regardless of the outcome). -/
def Engine.run_dispatch (e : Engine) (fs : List (Nat × Nat × List Nat)) : Engine :=
  fs.foldl (fun acc f => acc.dispatch f.1 f.2.1 f.2.2) e

/-- Modelled from the spec: `run_parse_pass` (exposed to Python as
`parse_data_task`) — run the §4.2 synchronizer over the accumulator,
dispatch each complete frame through §4.3, keep the residual bytes
buffered and account the transport errors. -/
def Engine.parse_data_task (e : Engine) : Engine :=
  let out := parse_stream e.hdr e.rx_accum
  let e' := e.run_dispatch out.frames
  { e' with rx_accum := out.residual,
            transport_error_count := e'.transport_error_count + out.transport_errors }

/-- One engine-boundary operation (spec §6). -/
inductive Op where
  | push (bs : List Nat)
  | parse
  | enqueue (comp data : Nat) (payload : List Nat)
  | drain
  | register (comp data : Nat) (ent : RegEntry)
  | registerAny (comp data : Nat)
deriving DecidableEq, Repr

/-- Apply one engine-boundary operation to the engine state. -/
def applyOp (e : Engine) : Op → Engine
  | .push bs => e.rev_data_push bs
  | .parse => e.parse_data_task
  | .enqueue comp data payload => (e.build_send_data comp data payload).1
  | .drain => (e.pop_send_buffer).2
  | .register comp data ent => e.register comp data ent
  | .registerAny comp data => e.register_any_payload comp data

/-- Apply a sequence of engine-boundary operations in order. -/
def applyOps (e : Engine) (ops : List Op) : Engine :=
  ops.foldl applyOp e

/-! ### Streams of frames with interspersed garbage (spec §8) -/

/-- One segment of a received stream: a (possibly empty) run of garbage
bytes followed by one validly encoded frame. -/
structure StreamItem where
  garbage : List Nat
  seq : Nat
  flags : Nat
  comp : Nat
  data : Nat
  payload : List Nat
deriving DecidableEq, Repr

/-- The bytes of one stream segment. -/
def renderItem (hdr : Nat) (it : StreamItem) : List Nat :=
  it.garbage ++ encode hdr it.seq it.comp it.data it.flags it.payload

/-- A byte stream made of encoded frames with garbage runs interspersed,
ending in a final (possibly empty) garbage run. -/
def renderStream (hdr : Nat) (items : List StreamItem) (tg : List Nat) : List Nat :=
  match items with
  | [] => tg
  | it :: rest => renderItem hdr it ++ renderStream hdr rest tg

/-- A stream segment is well formed when its garbage run holds no sync
byte and its payload fits the 13-bit length field. -/
@[reducible] def ItemWF (hdr : Nat) (it : StreamItem) : Prop :=
  (∀ b ∈ it.garbage, b ≠ hdr) ∧ it.payload.length ≤ 8191

/-- The registry accepts a frame for `(comp, data)` with payload length
`n` when a typed entry of exactly that size, or the wildcard observer,
is registered. -/
def accepts (e : Engine) (comp data n : Nat) : Bool :=
  match e.registry comp data with
  | none => false
  | some (.typed sz) => n = sz
  | some .anyPayload => true

/-- A small concrete engine instance used to exercise the theorems:
sync byte 170, a typed 4-byte decoder registered at `(2, 1)` and a
wildcard observer at `(1, 1)`. -/
def sampleEngine : Engine :=
  { hdr := 170
    max_payload := 64
    max_queue_bytes := 256
    seq_id := 0
    registry := fun c d =>
      if c = 2 ∧ d = 1 then some (.typed 4)
      else if c = 1 ∧ d = 1 then some .anyPayload
      else none
    comp_state := fun _ _ => none
    send_queue := []
    rx_accum := []
    events := []
    success_count := 0
    transport_error_count := 0
    decode_error_count := 0 }

/-- A byte string that is the encoding of some frame. -/
def IsEncodedFrame (hdr : Nat) (bs : List Nat) : Prop :=
  ∃ s c d fl p, bs = encode hdr s c d fl p


/-! ### Basic facts about `findSync` -/

theorem findSync_nil (hdr : Nat) : findSync hdr [] = none := rfl

theorem findSync_cons_self (hdr : Nat) (rest : List Nat) :
    findSync hdr (hdr :: rest) = some 0 := by
  simp [findSync]

theorem findSync_eq_none_iff (hdr : Nat) (l : List Nat) :
    findSync hdr l = none ↔ ∀ b ∈ l, b ≠ hdr := by
  induction l with
  | nil => simp [findSync]
  | cons x xs ih =>
    by_cases hx : x = hdr
    · subst hx; simp [findSync]
    · simp [findSync, hx, ih]

theorem findSync_lt_length (hdr : Nat) :
    ∀ (l : List Nat) (i : Nat), findSync hdr l = some i → i < l.length := by
  intro l
  induction l with
  | nil => intro i h; simp [findSync] at h
  | cons x xs ih =>
    intro i h
    by_cases hx : x = hdr
    · subst hx; rw [findSync_cons_self] at h
      cases h
      exact Nat.succ_pos _
    · simp only [findSync, hx, if_false] at h
      cases hfs : findSync hdr xs with
      | none => simp [hfs] at h
      | some j =>
        rw [hfs] at h
        rw [show (some j).map (· + 1) = some (j + 1) from rfl] at h
        cases h
        have := ih j hfs
        simp only [List.length_cons]
        omega

theorem findSync_append_of_not_mem (hdr : Nat) (g rest : List Nat)
    (hg : ∀ b ∈ g, b ≠ hdr) :
    findSync hdr (g ++ hdr :: rest) = some g.length := by
  induction g with
  | nil => simp [findSync_cons_self]
  | cons x xs ih =>
    have hx : x ≠ hdr := hg x (by simp)
    have ih' := ih (fun b hb => hg b (by simp [hb]))
    simp [findSync, hx, ih']

theorem findSync_none_of_not_mem (hdr : Nat) (g : List Nat)
    (hg : ∀ b ∈ g, b ≠ hdr) : findSync hdr g = none :=
  (findSync_eq_none_iff hdr g).2 hg

/-! ### Step lemmas for `parse_frames` -/

theorem parse_frames_of_no_sync (hdr : Nat) (buf : List Nat)
    (h : findSync hdr buf = none) : parse_frames hdr buf = ([], []) := by
  rw [parse_frames.eq_def, h]

theorem parse_frames_wait_header (hdr : Nat) (buf : List Nat) (idx : Nat)
    (h : findSync hdr buf = some idx) (h8 : (buf.drop idx).length < 8) :
    parse_frames hdr buf = ([], buf.drop idx) := by
  rw [parse_frames.eq_def, h]
  exact dif_pos h8

theorem parse_frames_wait_payload (hdr : Nat) (buf : List Nat) (idx : Nat)
    (h : findSync hdr buf = some idx) (h8 : ¬ (buf.drop idx).length < 8)
    (hfl : (buf.drop idx).length < 8 + payload_len (buf.drop idx)) :
    parse_frames hdr buf = ([], buf.drop idx) := by
  rw [parse_frames.eq_def, h]
  exact (dif_neg h8).trans (dif_pos hfl)

theorem parse_frames_step (hdr : Nat) (buf : List Nat) (idx : Nat)
    (h : findSync hdr buf = some idx) (h8 : ¬ (buf.drop idx).length < 8)
    (hfl : ¬ (buf.drop idx).length < 8 + payload_len (buf.drop idx)) :
    parse_frames hdr buf =
      (⟨(buf.drop idx).getD 2 0, (buf.drop idx).getD 3 0, payload_len (buf.drop idx)⟩ ::
        (parse_frames hdr ((buf.drop idx).drop (8 + payload_len (buf.drop idx)))).1,
        (parse_frames hdr ((buf.drop idx).drop (8 + payload_len (buf.drop idx)))).2) := by
  rw [parse_frames.eq_def, h]
  exact (dif_neg h8).trans (dif_neg hfl)

/-! ### Arithmetic of the 13-bit length mask -/

theorem and_8191_eq_mod (w : Nat) : w &&& 8191 = w % 8192 := by
  have h2 : (8192 : Nat) = 2 ^ 13 := by norm_num
  have h : (8191 : Nat) = 2 ^ 13 - 1 := by norm_num
  apply Nat.eq_of_testBit_eq
  intro i
  rw [h, h2, Nat.testBit_land, Nat.testBit_mod_two_pow, Nat.testBit_two_pow_sub_one]
  cases Nat.testBit w i <;> simp [Bool.and_comm]

theorem payload_len_le (b : List Nat) : payload_len b ≤ 8191 := by
  rw [payload_len, and_8191_eq_mod]
  omega

/-! ### Facts about `encode` -/

theorem encode_length (hdr s c d fl : Nat) (p : List Nat) :
    (encode hdr s c d fl p).length = 8 + p.length := by
  simp [encode]
  omega

theorem encode_append_eq (hdr s c d fl : Nat) (p rest : List Nat) :
    encode hdr s c d fl p ++ rest =
      hdr :: s % 256 :: c % 256 :: d % 256 ::
        p.length % 256 :: p.length / 256 :: fl % 256 :: 0 :: (p ++ rest) := by
  simp [encode]

theorem payload_len_encode_append (hdr s c d fl : Nat) (p rest : List Nat)
    (hp : p.length ≤ 8191) :
    payload_len (encode hdr s c d fl p ++ rest) = p.length := by
  rw [encode_append_eq]
  show (p.length % 256 + 256 * (p.length / 256)) &&& 8191 = p.length
  rw [Nat.mod_add_div, and_8191_eq_mod]
  omega

/-! ### Step lemmas for `parse_stream` -/

theorem parse_stream_of_no_sync (hdr : Nat) (buf : List Nat)
    (h : findSync hdr buf = none) :
    parse_stream hdr buf = if buf.isEmpty then ⟨[], [], 0⟩ else ⟨[], [], 1⟩ := by
  rw [parse_stream.eq_def, h]

theorem parse_stream_nil (hdr : Nat) : parse_stream hdr [] = ⟨[], [], 0⟩ := by
  rw [parse_stream_of_no_sync hdr [] (findSync_nil hdr)]
  rfl

theorem parse_stream_garbage_only (hdr : Nat) (g : List Nat) (hne : g ≠ [])
    (hg : ∀ b ∈ g, b ≠ hdr) : parse_stream hdr g = ⟨[], [], 1⟩ := by
  rw [parse_stream_of_no_sync hdr g (findSync_none_of_not_mem hdr g hg)]
  cases g with
  | nil => exact absurd rfl hne
  | cons x xs => rfl

theorem parse_stream_wait_header (hdr : Nat) (buf : List Nat) (idx : Nat)
    (h : findSync hdr buf = some idx) (h8 : (buf.drop idx).length < 8) :
    parse_stream hdr buf = ⟨[], buf.drop idx, if idx = 0 then 0 else 1⟩ := by
  rw [parse_stream.eq_def, h]
  exact dif_pos h8

theorem parse_stream_wait_payload (hdr : Nat) (buf : List Nat) (idx : Nat)
    (h : findSync hdr buf = some idx) (h8 : ¬ (buf.drop idx).length < 8)
    (hfl : (buf.drop idx).length < 8 + payload_len (buf.drop idx)) :
    parse_stream hdr buf = ⟨[], buf.drop idx, if idx = 0 then 0 else 1⟩ := by
  rw [parse_stream.eq_def, h]
  exact (dif_neg h8).trans (dif_pos hfl)

theorem parse_stream_step (hdr : Nat) (buf : List Nat) (idx : Nat)
    (h : findSync hdr buf = some idx) (h8 : ¬ (buf.drop idx).length < 8)
    (hfl : ¬ (buf.drop idx).length < 8 + payload_len (buf.drop idx)) :
    parse_stream hdr buf =
      ⟨((buf.drop idx).getD 2 0, (buf.drop idx).getD 3 0,
          ((buf.drop idx).drop 8).take (payload_len (buf.drop idx))) ::
          (parse_stream hdr ((buf.drop idx).drop (8 + payload_len (buf.drop idx)))).frames,
        (parse_stream hdr ((buf.drop idx).drop (8 + payload_len (buf.drop idx)))).residual,
        (if idx = 0 then 0 else 1) +
          (parse_stream hdr ((buf.drop idx).drop (8 + payload_len (buf.drop idx)))).transport_errors⟩ := by
  rw [parse_stream.eq_def, h]
  exact (dif_neg h8).trans (dif_neg hfl)

theorem parse_stream_frame_step (hdr s c d fl : Nat) (p rest : List Nat)
    (hp : p.length ≤ 8191) :
    parse_stream hdr (encode hdr s c d fl p ++ rest) =
      ⟨(c % 256, d % 256, p) :: (parse_stream hdr rest).frames,
        (parse_stream hdr rest).residual,
        (parse_stream hdr rest).transport_errors⟩ := by
  have hbuf := encode_append_eq hdr s c d fl p rest
  have hfind : findSync hdr (encode hdr s c d fl p ++ rest) = some 0 := by
    rw [hbuf]; exact findSync_cons_self hdr _
  have hlen : (encode hdr s c d fl p ++ rest).length = 8 + p.length + rest.length := by
    rw [List.length_append, encode_length]
  have hpl : payload_len (encode hdr s c d fl p ++ rest) = p.length :=
    payload_len_encode_append hdr s c d fl p rest hp
  have h8 : ¬ ((encode hdr s c d fl p ++ rest).drop 0).length < 8 := by
    rw [List.drop_zero, hlen]; omega
  have hfl8 : ¬ ((encode hdr s c d fl p ++ rest).drop 0).length <
      8 + payload_len ((encode hdr s c d fl p ++ rest).drop 0) := by
    rw [List.drop_zero, hlen, hpl]; omega
  have hstep := parse_stream_step hdr (encode hdr s c d fl p ++ rest) 0 hfind h8 hfl8
  rw [List.drop_zero] at hstep
  have hg2 : (encode hdr s c d fl p ++ rest).getD 2 0 = c % 256 := by rw [hbuf]; rfl
  have hg3 : (encode hdr s c d fl p ++ rest).getD 3 0 = d % 256 := by rw [hbuf]; rfl
  have hd8 : (encode hdr s c d fl p ++ rest).drop 8 = p ++ rest := by rw [hbuf]; rfl
  have htake : (p ++ rest).take p.length = p := List.take_left p rest
  have hdroprest : (encode hdr s c d fl p ++ rest).drop (8 + p.length) = rest := by
    rw [← List.drop_drop, hd8]
    exact List.drop_left p rest
  rw [hstep, hg2, hg3, hd8, hpl, htake, hdroprest]
  simp

theorem parse_stream_garbage_skip (hdr : Nat) (g t : List Nat) (hne : g ≠ [])
    (hg : ∀ b ∈ g, b ≠ hdr) :
    parse_stream hdr (g ++ hdr :: t) =
      ⟨(parse_stream hdr (hdr :: t)).frames, (parse_stream hdr (hdr :: t)).residual,
        (parse_stream hdr (hdr :: t)).transport_errors + 1⟩ := by
  have hfind : findSync hdr (g ++ hdr :: t) = some g.length :=
    findSync_append_of_not_mem hdr g t hg
  have hgl : g.length ≠ 0 := by
    cases g with
    | nil => exact absurd rfl hne
    | cons x xs => simp
  have hdropg : (g ++ hdr :: t).drop g.length = hdr :: t := List.drop_left g (hdr :: t)
  have hfind0 : findSync hdr (hdr :: t) = some 0 := findSync_cons_self hdr t
  by_cases h8 : (hdr :: t).length < 8
  · rw [parse_stream_wait_header hdr (g ++ hdr :: t) g.length hfind (by rw [hdropg]; exact h8),
      parse_stream_wait_header hdr (hdr :: t) 0 hfind0 (by rw [List.drop_zero]; exact h8)]
    simp [hdropg, hgl]
  · by_cases hfl : (hdr :: t).length < 8 + payload_len (hdr :: t)
    · rw [parse_stream_wait_payload hdr (g ++ hdr :: t) g.length hfind
        (by rw [hdropg]; exact h8) (by rw [hdropg]; exact hfl),
        parse_stream_wait_payload hdr (hdr :: t) 0 hfind0
        (by rw [List.drop_zero]; exact h8) (by rw [List.drop_zero]; exact hfl)]
      simp [hdropg, hgl]
    · rw [parse_stream_step hdr (g ++ hdr :: t) g.length hfind
        (by rw [hdropg]; exact h8) (by rw [hdropg]; exact hfl),
        parse_stream_step hdr (hdr :: t) 0 hfind0
        (by rw [List.drop_zero]; exact h8) (by rw [List.drop_zero]; exact hfl)]
      simp [hdropg, hgl]
      omega

theorem parse_stream_renderStream (hdr : Nat) (items : List StreamItem) (tg : List Nat)
    (hitems : ∀ it ∈ items, ItemWF hdr it) (htg : ∀ b ∈ tg, b ≠ hdr) :
    parse_stream hdr (renderStream hdr items tg) =
      ⟨items.map (fun it => (it.comp % 256, it.data % 256, it.payload)), [],
        items.countP (fun it => !it.garbage.isEmpty) + (if tg.isEmpty then 0 else 1)⟩ := by
  induction items with
  | nil =>
    cases tg with
    | nil => simpa [renderStream] using parse_stream_nil hdr
    | cons x xs =>
      rw [renderStream, parse_stream_garbage_only hdr (x :: xs) (by simp) htg]
      simp
  | cons it rest ih =>
    have hwf := hitems it (by simp)
    have ih' := ih (fun j hj => hitems j (by simp [hj]))
    rw [renderStream, renderItem, List.append_assoc]
    cases hgar : it.garbage with
    | nil =>
      simp only [List.nil_append]
      rw [parse_stream_frame_step hdr it.seq it.comp it.data it.flags it.payload
        (renderStream hdr rest tg) hwf.2, ih']
      simp [hgar]
    | cons g0 gs =>
      have hgne : it.garbage ≠ [] := by rw [hgar]; simp
      have hgnh : ∀ b ∈ it.garbage, b ≠ hdr := hwf.1
      have henc := encode_append_eq hdr it.seq it.comp it.data it.flags it.payload
        (renderStream hdr rest tg)
      rw [← hgar, henc, parse_stream_garbage_skip hdr it.garbage _ hgne hgnh, ← henc,
        parse_stream_frame_step hdr it.seq it.comp it.data it.flags it.payload
        (renderStream hdr rest tg) hwf.2, ih']
      simp [hgar]
      omega

/-! ### Dispatch bookkeeping -/

theorem accepts_of_registry_eq (e e' : Engine) (h : e'.registry = e.registry)
    (comp data n : Nat) : accepts e' comp data n = accepts e comp data n := by
  unfold accepts
  rw [h]

theorem dispatch_preserves (e : Engine) (comp data : Nat) (p : List Nat) :
    (e.dispatch comp data p).hdr = e.hdr ∧
    (e.dispatch comp data p).max_payload = e.max_payload ∧
    (e.dispatch comp data p).max_queue_bytes = e.max_queue_bytes ∧
    (e.dispatch comp data p).seq_id = e.seq_id ∧
    (e.dispatch comp data p).registry = e.registry ∧
    (e.dispatch comp data p).send_queue = e.send_queue ∧
    (e.dispatch comp data p).rx_accum = e.rx_accum ∧
    (e.dispatch comp data p).transport_error_count = e.transport_error_count := by
  unfold Engine.dispatch
  split <;> (try split) <;> exact ⟨rfl, rfl, rfl, rfl, rfl, rfl, rfl, rfl⟩

theorem dispatch_accepted (e : Engine) (comp data : Nat) (p : List Nat)
    (h : accepts e comp data p.length = true) :
    (e.dispatch comp data p).success_count = e.success_count + 1 ∧
    (e.dispatch comp data p).decode_error_count = e.decode_error_count ∧
    (e.dispatch comp data p).events = e.events ++ [(comp, data, p)] := by
  unfold accepts at h
  cases hr : e.registry comp data with
  | none => rw [hr] at h; simp at h
  | some ent =>
    rw [hr] at h
    cases ent with
    | typed sz =>
      have hsz : p.length = sz := by simpa using h
      simp [Engine.dispatch, hr, hsz]
    | anyPayload =>
      simp [Engine.dispatch, hr]

theorem dispatch_unregistered (e : Engine) (comp data : Nat) (p : List Nat)
    (h : e.registry comp data = none) :
    e.dispatch comp data p =
      { e with decode_error_count := e.decode_error_count + 1 } := by
  simp only [Engine.dispatch, h]

theorem dispatch_size_mismatch (e : Engine) (comp data sz : Nat) (p : List Nat)
    (h : e.registry comp data = some (.typed sz)) (hne : p.length ≠ sz) :
    e.dispatch comp data p =
      { e with decode_error_count := e.decode_error_count + 1 } := by
  simp only [Engine.dispatch, h, if_neg hne]

theorem run_dispatch_accepted (fs : List (Nat × Nat × List Nat)) :
    ∀ e : Engine, (∀ f ∈ fs, accepts e f.1 f.2.1 f.2.2.length = true) →
      (e.run_dispatch fs).success_count = e.success_count + fs.length ∧
      (e.run_dispatch fs).decode_error_count = e.decode_error_count ∧
      (e.run_dispatch fs).transport_error_count = e.transport_error_count ∧
      (e.run_dispatch fs).rx_accum = e.rx_accum ∧
      (e.run_dispatch fs).events = e.events ++ fs ∧
      (e.run_dispatch fs).registry = e.registry := by
  induction fs with
  | nil => intro e _; simp [Engine.run_dispatch]
  | cons f fs ih =>
    intro e h
    have hf := h f (by simp)
    have hda := dispatch_accepted e f.1 f.2.1 f.2.2 hf
    have hdp := dispatch_preserves e f.1 f.2.1 f.2.2
    have hreg : (e.dispatch f.1 f.2.1 f.2.2).registry = e.registry := hdp.2.2.2.2.1
    have ih' := ih (e.dispatch f.1 f.2.1 f.2.2)
      (fun g hg => by
        rw [accepts_of_registry_eq e (e.dispatch f.1 f.2.1 f.2.2) hreg]
        exact h g (by simp [hg]))
    have hrun : e.run_dispatch (f :: fs) =
        (e.dispatch f.1 f.2.1 f.2.2).run_dispatch fs := rfl
    rw [hrun]
    refine ⟨?_, ?_, ?_, ?_, ?_, ?_⟩
    · rw [ih'.1, hda.1]
      simp [List.length_cons]
      omega
    · rw [ih'.2.1, hda.2.1]
    · rw [ih'.2.2.1, hdp.2.2.2.2.2.2.2]
    · rw [ih'.2.2.2.1, hdp.2.2.2.2.2.2.1]
    · rw [ih'.2.2.2.2.1, hda.2.2, List.append_assoc]
      simp
    · rw [ih'.2.2.2.2.2, hreg]

theorem parse_data_task_def (e : Engine) :
    e.parse_data_task =
      { e.run_dispatch (parse_stream e.hdr e.rx_accum).frames with
        rx_accum := (parse_stream e.hdr e.rx_accum).residual,
        transport_error_count :=
          (e.run_dispatch (parse_stream e.hdr e.rx_accum).frames).transport_error_count +
            (parse_stream e.hdr e.rx_accum).transport_errors } := rfl

/-- Core behaviour of one parse pass over a well-formed stream of `N`
frames with garbage runs interspersed: every frame is dispatched (one
success and one callback each, in order), every garbage run costs one
transport error, no decode errors arise, and the accumulator is left
empty. -/
theorem parse_data_task_spec (e : Engine) (items : List StreamItem) (tg : List Nat)
    (hrx : e.rx_accum = renderStream e.hdr items tg)
    (hitems : ∀ it ∈ items, ItemWF e.hdr it ∧
      accepts e (it.comp % 256) (it.data % 256) it.payload.length = true)
    (htg : ∀ b ∈ tg, b ≠ e.hdr) :
    e.parse_data_task.success_count = e.success_count + items.length ∧
    e.parse_data_task.decode_error_count = e.decode_error_count ∧
    e.parse_data_task.transport_error_count = e.transport_error_count +
      (items.countP (fun it => !it.garbage.isEmpty) + (if tg.isEmpty then 0 else 1)) ∧
    e.parse_data_task.rx_accum = [] ∧
    e.parse_data_task.events =
      e.events ++ items.map (fun it => (it.comp % 256, it.data % 256, it.payload)) := by
  have hps := parse_stream_renderStream e.hdr items tg (fun it hit => (hitems it hit).1) htg
  have hout : parse_stream e.hdr e.rx_accum =
      ⟨items.map (fun it => (it.comp % 256, it.data % 256, it.payload)), [],
        items.countP (fun it => !it.garbage.isEmpty) + (if tg.isEmpty then 0 else 1)⟩ := by
    rw [hrx, hps]
  have hacc : ∀ f ∈ items.map (fun it => (it.comp % 256, it.data % 256, it.payload)),
      accepts e f.1 f.2.1 f.2.2.length = true := by
    intro f hf
    obtain ⟨it, hit, rfl⟩ := List.mem_map.1 hf
    exact (hitems it hit).2
  have hrd := run_dispatch_accepted _ e hacc
  rw [parse_data_task_def, hout]
  have hlenmap : (items.map (fun it => (it.comp % 256, it.data % 256, it.payload))).length
      = items.length := List.length_map _ _
  exact ⟨by rw [show ({ e.run_dispatch _ with rx_accum := _, transport_error_count := _} :
      Engine).success_count = (e.run_dispatch _).success_count from rfl, hrd.1, hlenmap],
    by rw [show ({ e.run_dispatch _ with rx_accum := _, transport_error_count := _} :
      Engine).decode_error_count = (e.run_dispatch _).decode_error_count from rfl, hrd.2.1],
    by rw [show ({ e.run_dispatch _ with rx_accum := _, transport_error_count := _} :
      Engine).transport_error_count = (e.run_dispatch _).transport_error_count + _ from rfl,
      hrd.2.2.1],
    rfl,
    by rw [show ({ e.run_dispatch _ with rx_accum := _, transport_error_count := _} :
      Engine).events = (e.run_dispatch _).events from rfl, hrd.2.2.2.2.1]⟩

/-! ### Counter monotonicity helpers -/

theorem dispatch_counters_mono (e : Engine) (comp data : Nat) (p : List Nat) :
    e.success_count ≤ (e.dispatch comp data p).success_count ∧
    e.decode_error_count ≤ (e.dispatch comp data p).decode_error_count ∧
    (e.dispatch comp data p).transport_error_count = e.transport_error_count := by
  unfold Engine.dispatch
  split <;> (try split) <;> exact ⟨by simp, by simp, rfl⟩

theorem run_dispatch_counters_mono (fs : List (Nat × Nat × List Nat)) :
    ∀ e : Engine,
      e.success_count ≤ (e.run_dispatch fs).success_count ∧
      e.decode_error_count ≤ (e.run_dispatch fs).decode_error_count ∧
      (e.run_dispatch fs).transport_error_count = e.transport_error_count := by
  induction fs with
  | nil => intro e; exact ⟨le_refl _, le_refl _, rfl⟩
  | cons f fs ih =>
    intro e
    have h1 := dispatch_counters_mono e f.1 f.2.1 f.2.2
    have h2 := ih (e.dispatch f.1 f.2.1 f.2.2)
    have hrun : e.run_dispatch (f :: fs) =
        (e.dispatch f.1 f.2.1 f.2.2).run_dispatch fs := rfl
    rw [hrun]
    exact ⟨le_trans h1.1 h2.1, le_trans h1.2.1 h2.2.1, by rw [h2.2.2, h1.2.2]⟩

theorem applyOp_counters_mono (e : Engine) (op : Op) :
    e.success_count ≤ (applyOp e op).success_count ∧
    e.transport_error_count ≤ (applyOp e op).transport_error_count ∧
    e.decode_error_count ≤ (applyOp e op).decode_error_count := by
  cases op with
  | push bs => exact ⟨le_refl _, le_refl _, le_refl _⟩
  | parse =>
    have hm := run_dispatch_counters_mono (parse_stream e.hdr e.rx_accum).frames e
    rw [applyOp, parse_data_task_def]
    refine ⟨hm.1, ?_, hm.2.1⟩
    rw [show ({ e.run_dispatch _ with rx_accum := _, transport_error_count := _} :
      Engine).transport_error_count = (e.run_dispatch _).transport_error_count + _ from rfl,
      hm.2.2]
    exact Nat.le_add_right _ _
  | enqueue comp data payload =>
    rw [applyOp]
    unfold Engine.build_send_data
    split
    · exact ⟨le_refl _, le_refl _, le_refl _⟩
    · dsimp only
      split
      · exact ⟨le_refl _, le_refl _, le_refl _⟩
      · exact ⟨le_refl _, le_refl _, le_refl _⟩
  | drain => exact ⟨le_refl _, le_refl _, le_refl _⟩
  | register comp data ent => exact ⟨le_refl _, le_refl _, le_refl _⟩
  | registerAny comp data => exact ⟨le_refl _, le_refl _, le_refl _⟩

/-! ### More `findSync` / `getD` helpers -/

theorem findSync_getD (hdr : Nat) :
    ∀ (l : List Nat) (i : Nat), findSync hdr l = some i → l.getD i 0 = hdr := by
  intro l
  induction l with
  | nil => intro i h; simp [findSync] at h
  | cons x xs ih =>
    intro i h
    by_cases hx : x = hdr
    · subst hx; rw [findSync_cons_self] at h
      cases h; rfl
    · simp only [findSync, hx, if_false] at h
      cases hfs : findSync hdr xs with
      | none => simp [hfs] at h
      | some j =>
        rw [hfs] at h
        rw [show (some j).map (· + 1) = some (j + 1) from rfl] at h
        cases h
        simpa using ih j hfs

theorem getD_drop_zero (l : List Nat) (i : Nat) : (l.drop i).getD 0 0 = l.getD i 0 := by
  simp [List.getD_eq_getElem?_getD, List.getElem?_drop]

theorem getD_take (l : List Nat) (k i : Nat) (h : i < k) :
    (l.take k).getD i 0 = l.getD i 0 := by
  simp [List.getD_eq_getElem?_getD, List.getElem?_take, h]

theorem payload_len_encode (hdr s c d fl : Nat) (p : List Nat) (hp : p.length ≤ 8191) :
    payload_len (encode hdr s c d fl p) = p.length := by
  have h := payload_len_encode_append hdr s c d fl p [] hp
  rwa [List.append_nil] at h

/-! ### C3 — frame length arithmetic -/

theorem try_decode_encode (hdr s c d fl : Nat) (p : List Nat) (hp : p.length ≤ 8191) :
    try_decode hdr (encode hdr s c d fl p) =
      .ok ⟨s % 256, c % 256, d % 256, fl % 256, p⟩ (8 + p.length) := by
  have hpl : payload_len (encode hdr s c d fl p) = p.length :=
    payload_len_encode hdr s c d fl p hp
  have hlen : (encode hdr s c d fl p).length = 8 + p.length :=
    encode_length hdr s c d fl p
  have hcons : encode hdr s c d fl p = hdr :: s % 256 :: c % 256 :: d % 256 ::
      p.length % 256 :: p.length / 256 :: fl % 256 :: 0 :: p := rfl
  have hnil : ¬ encode hdr s c d fl p = [] := by rw [hcons]; simp
  have hg0 : (encode hdr s c d fl p).getD 0 0 = hdr := by rw [hcons]; rfl
  have h8 : ¬ (encode hdr s c d fl p).length < 8 := by rw [hlen]; omega
  have hfl8 : ¬ (encode hdr s c d fl p).length < 8 + payload_len (encode hdr s c d fl p) := by
    rw [hlen, hpl]; omega
  have hdrop : (encode hdr s c d fl p).drop 8 = p := by rw [hcons]; rfl
  have h1 : (encode hdr s c d fl p).getD 1 0 = s % 256 := by rw [hcons]; rfl
  have h2 : (encode hdr s c d fl p).getD 2 0 = c % 256 := by rw [hcons]; rfl
  have h3 : (encode hdr s c d fl p).getD 3 0 = d % 256 := by rw [hcons]; rfl
  have h6 : (encode hdr s c d fl p).getD 6 0 = fl % 256 := by rw [hcons]; rfl
  rw [try_decode, if_neg hnil, if_neg (by rw [hg0]; simp), if_neg h8, if_neg hfl8,
    hpl, hdrop, h1, h2, h3, h6, List.take_length]

/-- C3: in every well-formed frame the payload length is the low 13 bits
(mask `0x1FFF`, hence in `0..8191`) of the little-endian 16-bit word at
byte offsets 4–5, the header is exactly 8 bytes, and the total frame
length — the bytes `encode` produces and the bytes a successful
`try_decode` consumes — is exactly `8 + payload_length`. -/
theorem C3_frame_length_arithmetic (hdr s c d fl : Nat) (p w : List Nat) (f : Frame) (n : Nat)
    (hp : p.length ≤ 8191) (hdec : try_decode hdr w = .ok f n) :
    (encode hdr s c d fl p).length = 8 + p.length ∧
    payload_len w = (w.getD 4 0 + 256 * w.getD 5 0) % 8192 ∧
    payload_len w ≤ 8191 ∧
    n = 8 + payload_len w ∧
    f.payload.length = payload_len w := by
  have hok : n = 8 + payload_len w ∧ f.payload.length = payload_len w := by
    rw [try_decode] at hdec
    split_ifs at hdec with h1 h2 h3 h4
    rw [DecodeResult.ok.injEq] at hdec
    obtain ⟨hf, hn⟩ := hdec
    refine ⟨hn.symm, ?_⟩
    rw [← hf]
    simp only [List.length_take, List.length_drop]
    omega
  exact ⟨encode_length hdr s c d fl p, and_8191_eq_mod _, payload_len_le w, hok.1, hok.2⟩

theorem C3_witness :
    ([1, 2, 3] : List Nat).length ≤ 8191 ∧
    try_decode 170 (encode 170 0 1 2 0 [1, 2, 3]) = .ok ⟨0, 1, 2, 0, [1, 2, 3]⟩ 11 ∧
    ((encode 170 0 1 2 0 [1, 2, 3]).length = 11 ∧
      payload_len (encode 170 0 1 2 0 [1, 2, 3]) =
        ((encode 170 0 1 2 0 [1, 2, 3]).getD 4 0 +
          256 * (encode 170 0 1 2 0 [1, 2, 3]).getD 5 0) % 8192 ∧
      payload_len (encode 170 0 1 2 0 [1, 2, 3]) ≤ 8191 ∧
      (11 : Nat) = 8 + payload_len (encode 170 0 1 2 0 [1, 2, 3]) ∧
      (Frame.mk 0 1 2 0 [1, 2, 3]).payload.length =
        payload_len (encode 170 0 1 2 0 [1, 2, 3])) :=
  have hd : try_decode 170 (encode 170 0 1 2 0 [1, 2, 3]) =
      .ok ⟨0, 1, 2, 0, [1, 2, 3]⟩ 11 := by decide
  ⟨by decide, hd,
    C3_frame_length_arithmetic 170 0 1 2 0 [1, 2, 3] (encode 170 0 1 2 0 [1, 2, 3])
      ⟨0, 1, 2, 0, [1, 2, 3]⟩ 11 (by decide) hd⟩

/-! ### C9 — residual buffer invariant of `parse_frames` -/

theorem parse_frames_residual_aux (hdr : Nat) :
    ∀ (n : Nat) (buf : List Nat), buf.length ≤ n →
      (parse_frames hdr buf).2 = [] ∨
        ((parse_frames hdr buf).2.getD 0 0 = hdr ∧
          ((parse_frames hdr buf).2.length < 8 ∨
            (parse_frames hdr buf).2.length < 8 + payload_len (parse_frames hdr buf).2)) := by
  intro n
  induction n with
  | zero =>
    intro buf hlen
    have hb : buf = [] := List.length_eq_zero.1 (Nat.le_zero.1 hlen)
    subst hb
    rw [parse_frames_of_no_sync hdr [] (findSync_nil hdr)]
    exact Or.inl rfl
  | succ n ih =>
    intro buf hlen
    cases hf : findSync hdr buf with
    | none =>
      rw [parse_frames_of_no_sync hdr buf hf]
      exact Or.inl rfl
    | some idx =>
      have hdropget : (buf.drop idx).getD 0 0 = hdr := by
        rw [getD_drop_zero]
        exact findSync_getD hdr buf idx hf
      by_cases h8 : (buf.drop idx).length < 8
      · rw [parse_frames_wait_header hdr buf idx hf h8]
        exact Or.inr ⟨hdropget, Or.inl h8⟩
      · by_cases hfl : (buf.drop idx).length < 8 + payload_len (buf.drop idx)
        · rw [parse_frames_wait_payload hdr buf idx hf h8 hfl]
          exact Or.inr ⟨hdropget, Or.inr hfl⟩
        · rw [parse_frames_step hdr buf idx hf h8 hfl]
          apply ih
          simp only [List.length_drop] at h8 ⊢
          omega

/-- C9: after every call to `parse_frames`, the residual buffer is either
empty, or its first byte is the sync marker and it holds at most one
incomplete frame (its length is below 8, or below 8 plus the 13-bit
payload length decoded from its bytes at offsets 4–5); in particular no
garbage byte preceding a sync marker ever survives a call. -/
theorem C9_residual_buffer_invariant (hdr : Nat) (buf : List Nat) :
    (parse_frames hdr buf).2 = [] ∨
      ((parse_frames hdr buf).2.getD 0 0 = hdr ∧
        ((parse_frames hdr buf).2.length < 8 ∨
          (parse_frames hdr buf).2.length < 8 + payload_len (parse_frames hdr buf).2)) :=
  parse_frames_residual_aux hdr buf.length buf (le_refl _)

/-! ### C10 — acceptance without any integrity check -/

/-- C10: whenever the buffer starts with the sync byte and holds at least
`8 + payload_len` bytes, `parse_frames` emits exactly one frame for that
prefix — component and data ids read from offsets 2 and 3 — and consumes
exactly `8 + payload_len` bytes, with no constraint whatever on the
sequence, flags, reserved or payload byte values: no checksum or field
validation exists. -/
theorem C10_no_integrity_check (hdr : Nat) (t : List Nat)
    (hlen : 8 + payload_len (hdr :: t) ≤ (hdr :: t).length) :
    parse_frames hdr (hdr :: t) =
      (⟨(hdr :: t).getD 2 0, (hdr :: t).getD 3 0, payload_len (hdr :: t)⟩ ::
          (parse_frames hdr ((hdr :: t).drop (8 + payload_len (hdr :: t)))).1,
        (parse_frames hdr ((hdr :: t).drop (8 + payload_len (hdr :: t)))).2) := by
  have hfind : findSync hdr (hdr :: t) = some 0 := findSync_cons_self hdr t
  have h8 : ¬ ((hdr :: t).drop 0).length < 8 := by
    rw [List.drop_zero]
    omega
  have hfl : ¬ ((hdr :: t).drop 0).length < 8 + payload_len ((hdr :: t).drop 0) := by
    rw [List.drop_zero]
    omega
  have hstep := parse_frames_step hdr (hdr :: t) 0 hfind h8 hfl
  rw [List.drop_zero] at hstep
  exact hstep

theorem C10_witness :
    8 + payload_len (170 :: [1, 2, 3, 0, 0, 0, 0, 9, 9] : List Nat) ≤
      (170 :: [1, 2, 3, 0, 0, 0, 0, 9, 9] : List Nat).length ∧
    parse_frames 170 (170 :: [1, 2, 3, 0, 0, 0, 0, 9, 9]) =
      (⟨2, 3, 0⟩ :: (parse_frames 170 [9, 9]).1, (parse_frames 170 [9, 9]).2) :=
  ⟨by decide, C10_no_integrity_check 170 [1, 2, 3, 0, 0, 0, 0, 9, 9] (by decide)⟩

/-! ### C4 — incomplete input waits without error -/

theorem parse_frames_aligned_incomplete (hdr : Nat) (t : List Nat)
    (hcond : (hdr :: t).length < 8 + payload_len (hdr :: t)) :
    parse_frames hdr (hdr :: t) = ([], hdr :: t) := by
  have hfind : findSync hdr (hdr :: t) = some 0 := findSync_cons_self hdr t
  by_cases h8 : (hdr :: t).length < 8
  · rw [parse_frames_wait_header hdr (hdr :: t) 0 hfind (by rw [List.drop_zero]; exact h8),
      List.drop_zero]
  · rw [parse_frames_wait_payload hdr (hdr :: t) 0 hfind (by rw [List.drop_zero]; exact h8)
      (by rw [List.drop_zero]; exact hcond), List.drop_zero]

theorem parse_stream_aligned_incomplete (hdr : Nat) (t : List Nat)
    (hcond : (hdr :: t).length < 8 + payload_len (hdr :: t)) :
    parse_stream hdr (hdr :: t) = ⟨[], hdr :: t, 0⟩ := by
  have hfind : findSync hdr (hdr :: t) = some 0 := findSync_cons_self hdr t
  by_cases h8 : (hdr :: t).length < 8
  · rw [parse_stream_wait_header hdr (hdr :: t) 0 hfind (by rw [List.drop_zero]; exact h8)]
    rw [List.drop_zero]
    simp
  · rw [parse_stream_wait_payload hdr (hdr :: t) 0 hfind (by rw [List.drop_zero]; exact h8)
      (by rw [List.drop_zero]; exact hcond)]
    rw [List.drop_zero]
    simp

theorem parse_data_task_waits (e : Engine) (t : List Nat)
    (hrx : e.rx_accum = e.hdr :: t)
    (hcond : (e.hdr :: t).length < 8 + payload_len (e.hdr :: t)) :
    e.parse_data_task = e := by
  have hps : parse_stream e.hdr e.rx_accum = ⟨[], e.hdr :: t, 0⟩ := by
    rw [hrx]
    exact parse_stream_aligned_incomplete e.hdr t hcond
  rw [parse_data_task_def, hps, ← hrx]
  show { e with rx_accum := e.rx_accum,
                transport_error_count := e.transport_error_count + 0 } = e
  rw [Nat.add_zero]

/-- C4: (i) a buffer aligned on the sync byte but holding fewer than 8
bytes, or fewer than `8 + payload_length` bytes, parses to no frame and
is kept intact; (ii) a parse pass over such an accumulator leaves the
engine completely unchanged — nothing dispatched, no counter stepped,
bytes still buffered; (iii) if the buffered bytes are a proper prefix of
a valid frame, pushing the remaining bytes later completes the frame and
it is dispatched. -/
theorem C4_incomplete_input_waits (hdr : Nat) :
    (∀ t : List Nat,
      (hdr :: t).length < 8 + payload_len (hdr :: t) →
      parse_frames hdr (hdr :: t) = ([], hdr :: t)) ∧
    (∀ (e : Engine) (t : List Nat),
      e.hdr = hdr → e.rx_accum = hdr :: t →
      (hdr :: t).length < 8 + payload_len (hdr :: t) →
      e.parse_data_task = e) ∧
    (∀ (e : Engine) (s c d fl k : Nat) (p : List Nat),
      e.hdr = hdr → p.length ≤ 8191 → 1 ≤ k → k < (encode hdr s c d fl p).length →
      e.rx_accum = (encode hdr s c d fl p).take k →
      accepts e (c % 256) (d % 256) p.length = true →
      e.parse_data_task = e ∧
      ((e.rev_data_push ((encode hdr s c d fl p).drop k)).parse_data_task).success_count
          = e.success_count + 1 ∧
      ((e.rev_data_push ((encode hdr s c d fl p).drop k)).parse_data_task).rx_accum = [] ∧
      ((e.rev_data_push ((encode hdr s c d fl p).drop k)).parse_data_task).events
          = e.events ++ [(c % 256, d % 256, p)]) := by
  refine ⟨?_, ?_, ?_⟩
  · intro t hcond
    exact parse_frames_aligned_incomplete hdr t hcond
  · intro e t hh hrx hcond
    subst hh
    exact parse_data_task_waits e t hrx hcond
  · intro e s c d fl k p hh hp hk1 hk2 hrx hacc
    subst hh
    obtain ⟨k', rfl⟩ : ∃ k', k = k' + 1 := ⟨k - 1, by omega⟩
    have hcons : encode e.hdr s c d fl p = e.hdr :: s % 256 :: c % 256 :: d % 256 ::
        p.length % 256 :: p.length / 256 :: fl % 256 :: 0 :: p := rfl
    have htake : (encode e.hdr s c d fl p).take (k' + 1) =
        e.hdr :: (s % 256 :: c % 256 :: d % 256 ::
          p.length % 256 :: p.length / 256 :: fl % 256 :: 0 :: p).take k' := by
      rw [hcons]
      simp
    have hlen : (encode e.hdr s c d fl p).length = 8 + p.length :=
      encode_length e.hdr s c d fl p
    have htklen : ((encode e.hdr s c d fl p).take (k' + 1)).length = k' + 1 := by
      rw [List.length_take]
      omega
    have hcond : ((encode e.hdr s c d fl p).take (k' + 1)).length <
        8 + payload_len ((encode e.hdr s c d fl p).take (k' + 1)) := by
      rw [htklen]
      by_cases h8 : k' + 1 < 8
      · omega
      · have h4 : (4 : Nat) < k' + 1 := by omega
        have h5 : (5 : Nat) < k' + 1 := by omega
        rw [payload_len, getD_take _ _ _ h4, getD_take _ _ _ h5, ← payload_len,
          payload_len_encode e.hdr s c d fl p hp]
        rw [hlen] at hk2
        omega
    have hwaits : e.parse_data_task = e := by
      apply parse_data_task_waits e ((s % 256 :: c % 256 :: d % 256 ::
        p.length % 256 :: p.length / 256 :: fl % 256 :: 0 :: p).take k')
      · rw [hrx, htake]
      · rw [← htake]
        exact hcond
    set e2 := e.rev_data_push ((encode e.hdr s c d fl p).drop (k' + 1)) with he2
    have hrx2 : e2.rx_accum = renderStream e2.hdr [⟨[], s, fl, c, d, p⟩] [] := by
      show e.rx_accum ++ (encode e.hdr s c d fl p).drop (k' + 1) = _
      rw [hrx, List.take_append_drop]
      simp [renderStream, renderItem]
      rfl
    have hspec := parse_data_task_spec e2 [⟨[], s, fl, c, d, p⟩] []
      hrx2
      (by
        intro it hit
        rw [List.mem_singleton] at hit
        subst hit
        exact ⟨⟨by simp, hp⟩, hacc⟩)
      (by intro b hb; simp at hb)
    refine ⟨hwaits, ?_, hspec.2.2.2.1, ?_⟩
    · rw [hspec.1]
      rfl
    · rw [hspec.2.2.2.2]
      rfl

theorem C4_witness :
    ((170 :: [1, 2] : List Nat).length < 8 + payload_len (170 :: [1, 2])) ∧
    parse_frames 170 (170 :: [1, 2]) = ([], 170 :: [1, 2]) ∧
    Engine.parse_data_task { sampleEngine with rx_accum := [170, 1, 2] } =
      { sampleEngine with rx_accum := [170, 1, 2] } ∧
    Engine.parse_data_task { sampleEngine with rx_accum := [170, 0, 2] } =
      { sampleEngine with rx_accum := [170, 0, 2] } ∧
    (Engine.parse_data_task (Engine.rev_data_push
        { sampleEngine with rx_accum := [170, 0, 2] }
        ((encode 170 0 2 1 0 [9, 9, 9, 9]).drop 3))).success_count =
      ({ sampleEngine with rx_accum := [170, 0, 2] } : Engine).success_count + 1 ∧
    (Engine.parse_data_task (Engine.rev_data_push
        { sampleEngine with rx_accum := [170, 0, 2] }
        ((encode 170 0 2 1 0 [9, 9, 9, 9]).drop 3))).events =
      ({ sampleEngine with rx_accum := [170, 0, 2] } : Engine).events ++ [(2, 1, [9, 9, 9, 9])] :=
  have h := C4_incomplete_input_waits 170
  have h3 := h.2.2 { sampleEngine with rx_accum := [170, 0, 2] } 0 2 1 0 3 [9, 9, 9, 9]
    rfl (by decide) (by decide) (by decide) (by decide) (by decide)
  ⟨by decide, h.1 [1, 2] (by decide),
    h.2.1 { sampleEngine with rx_accum := [170, 1, 2] } [1, 2] rfl rfl (by decide),
    h3.1, h3.2.1, h3.2.2.2⟩

/-! ### C1 — round trip and loopback -/

theorem build_send_data_accepted (e : Engine) (c d : Nat) (p : List Nat)
    (hp : p.length ≤ e.max_payload)
    (hq : e.queue_bytes + (8 + p.length) ≤ e.max_queue_bytes) :
    e.build_send_data c d p =
      ({ e with send_queue := e.send_queue ++ [encode e.hdr e.seq_id c d 0 p],
                seq_id := (e.seq_id + 1) % 256 }, .accepted) := by
  unfold Engine.build_send_data
  rw [if_neg (by omega)]
  dsimp only
  rw [if_neg (by rw [encode_length]; omega)]

/-- C1: encoding a valid triple and decoding the resulting bytes yields
the original triple unchanged (`try_decode (encode …)` round-trip law),
and the full loopback — `build_send_data`, `pop_send_buffer`,
`rev_data_push` of the drained bytes, `parse_data_task` — fires the
registered callback exactly once with the original
`(component_id, data_id, payload)` values. -/
theorem C1_roundtrip_loopback (hdr s c d fl : Nat) (p : List Nat) (e : Engine)
    (hc : c < 256) (hd : d < 256) (hp : p.length ≤ e.max_payload)
    (hmax : e.max_payload ≤ 8191) (hq : 8 + p.length ≤ e.max_queue_bytes)
    (hrx : e.rx_accum = []) (hsq : e.send_queue = [])
    (hacc : accepts e c d p.length = true) :
    try_decode hdr (encode hdr s c d fl p) =
      .ok ⟨s % 256, c % 256, d % 256, fl % 256, p⟩ (8 + p.length) ∧
    (e.build_send_data c d p).2 = .accepted ∧
    ((e.build_send_data c d p).1.pop_send_buffer.1 = encode e.hdr e.seq_id c d 0 p) ∧
    ((((e.build_send_data c d p).1.pop_send_buffer.2).rev_data_push
        ((e.build_send_data c d p).1.pop_send_buffer.1)).parse_data_task).success_count =
      e.success_count + 1 ∧
    ((((e.build_send_data c d p).1.pop_send_buffer.2).rev_data_push
        ((e.build_send_data c d p).1.pop_send_buffer.1)).parse_data_task).events =
      e.events ++ [(c, d, p)] ∧
    ((((e.build_send_data c d p).1.pop_send_buffer.2).rev_data_push
        ((e.build_send_data c d p).1.pop_send_buffer.1)).parse_data_task).rx_accum = [] ∧
    ((((e.build_send_data c d p).1.pop_send_buffer.2).rev_data_push
        ((e.build_send_data c d p).1.pop_send_buffer.1)).parse_data_task).transport_error_count =
      e.transport_error_count ∧
    ((((e.build_send_data c d p).1.pop_send_buffer.2).rev_data_push
        ((e.build_send_data c d p).1.pop_send_buffer.1)).parse_data_task).decode_error_count =
      e.decode_error_count := by
  have hp8191 : p.length ≤ 8191 := le_trans hp hmax
  have hqb : e.queue_bytes + (8 + p.length) ≤ e.max_queue_bytes := by
    have : e.queue_bytes = 0 := by
      rw [Engine.queue_bytes, hsq]
      rfl
    omega
  have hbuild := build_send_data_accepted e c d p hp hqb
  have hbuild1 : (e.build_send_data c d p).1 =
      { e with send_queue := e.send_queue ++ [encode e.hdr e.seq_id c d 0 p],
               seq_id := (e.seq_id + 1) % 256 } := by rw [hbuild]
  have hbuild2 : (e.build_send_data c d p).2 = .accepted := by rw [hbuild]
  have hpop1 : (e.build_send_data c d p).1.pop_send_buffer.1 =
      encode e.hdr e.seq_id c d 0 p := by
    rw [hbuild1]
    show (e.send_queue ++ [encode e.hdr e.seq_id c d 0 p]).flatten = _
    rw [hsq]
    simp
  set e2 := ((e.build_send_data c d p).1.pop_send_buffer.2).rev_data_push
      ((e.build_send_data c d p).1.pop_send_buffer.1) with he2
  have he2hdr : e2.hdr = e.hdr := by rw [he2, hbuild1]; rfl
  have hrx2 : e2.rx_accum = renderStream e2.hdr [⟨[], e.seq_id, 0, c, d, p⟩] [] := by
    show ((e.build_send_data c d p).1.pop_send_buffer.2).rx_accum ++
        (e.build_send_data c d p).1.pop_send_buffer.1 = _
    rw [hpop1]
    have : ((e.build_send_data c d p).1.pop_send_buffer.2).rx_accum = e.rx_accum := by
      rw [hbuild1]; rfl
    rw [this, hrx, List.nil_append, he2hdr]
    simp [renderStream, renderItem]
  have hacc2 : ∀ n : Nat, accepts e2 c d n = accepts e c d n := by
    intro n
    apply accepts_of_registry_eq
    rw [he2, hbuild1]
    rfl
  have hspec := parse_data_task_spec e2 [⟨[], e.seq_id, 0, c, d, p⟩] []
    hrx2
    (by
      intro it hit
      rw [List.mem_singleton] at hit
      subst hit
      refine ⟨⟨by simp, hp8191⟩, ?_⟩
      show accepts e2 (c % 256) (d % 256) p.length = true
      rw [Nat.mod_eq_of_lt hc, Nat.mod_eq_of_lt hd, hacc2]
      exact hacc)
    (by intro b hb; simp at hb)
  have he2succ : e2.success_count = e.success_count := by rw [he2, hbuild1]; rfl
  have he2ev : e2.events = e.events := by rw [he2, hbuild1]; rfl
  have he2te : e2.transport_error_count = e.transport_error_count := by rw [he2, hbuild1]; rfl
  have he2de : e2.decode_error_count = e.decode_error_count := by rw [he2, hbuild1]; rfl
  refine ⟨try_decode_encode hdr s c d fl p hp8191, hbuild2, hpop1, ?_, ?_, hspec.2.2.2.1, ?_, ?_⟩
  · rw [hspec.1, he2succ]
    rfl
  · rw [hspec.2.2.2.2, he2ev]
    simp [Nat.mod_eq_of_lt hc, Nat.mod_eq_of_lt hd]
  · rw [hspec.2.2.1, he2te]
    simp
  · rw [hspec.2.1, he2de]

theorem C1_witness :
    (2 : Nat) < 256 ∧ (1 : Nat) < 256 ∧
    ([9, 9, 9, 9] : List Nat).length ≤ sampleEngine.max_payload ∧
    sampleEngine.max_payload ≤ 8191 ∧
    8 + ([9, 9, 9, 9] : List Nat).length ≤ sampleEngine.max_queue_bytes ∧
    sampleEngine.rx_accum = [] ∧ sampleEngine.send_queue = [] ∧
    accepts sampleEngine 2 1 ([9, 9, 9, 9] : List Nat).length = true ∧
    try_decode 170 (encode 170 0 2 1 0 [9, 9, 9, 9]) =
      .ok ⟨0, 2, 1, 0, [9, 9, 9, 9]⟩ 12 ∧
    (sampleEngine.build_send_data 2 1 [9, 9, 9, 9]).2 = .accepted ∧
    ((((sampleEngine.build_send_data 2 1 [9, 9, 9, 9]).1.pop_send_buffer.2).rev_data_push
        ((sampleEngine.build_send_data 2 1 [9, 9, 9, 9]).1.pop_send_buffer.1)).parse_data_task).success_count =
      sampleEngine.success_count + 1 ∧
    ((((sampleEngine.build_send_data 2 1 [9, 9, 9, 9]).1.pop_send_buffer.2).rev_data_push
        ((sampleEngine.build_send_data 2 1 [9, 9, 9, 9]).1.pop_send_buffer.1)).parse_data_task).events =
      sampleEngine.events ++ [(2, 1, [9, 9, 9, 9])] :=
  have h := C1_roundtrip_loopback 170 0 2 1 0 [9, 9, 9, 9] sampleEngine
    (by decide) (by decide) (by decide) (by decide) (by decide) rfl rfl (by decide)
  ⟨by decide, by decide, by decide, by decide, by decide, rfl, rfl, by decide,
    h.1, h.2.1, h.2.2.2.1, h.2.2.2.2.1⟩

/-! ### C2 — resynchronization and transport-error accounting -/

/-- C2: pushing a byte stream of `N` validly encoded frames with garbage
runs interspersed (no garbage byte equal to the sync marker) and running
one parse pass dispatches all `N` frames (`success_count` grows by
exactly `N` when every id is registered), discards all garbage — one
whole-accumulator discard when no sync byte follows, a leading-garbage
discard otherwise, as the two final conjuncts state over `parse_stream`
— leaves the accumulator empty, and grows `transport_error_count` by
exactly the number of garbage runs. -/
theorem C2_resync_transport_errors (e : Engine) (items : List StreamItem) (tg : List Nat)
    (hrx : e.rx_accum = [])
    (hitems : ∀ it ∈ items, ItemWF e.hdr it ∧
      accepts e (it.comp % 256) (it.data % 256) it.payload.length = true)
    (htg : ∀ b ∈ tg, b ≠ e.hdr) :
    ((e.rev_data_push (renderStream e.hdr items tg)).parse_data_task).success_count
        = e.success_count + items.length ∧
    ((e.rev_data_push (renderStream e.hdr items tg)).parse_data_task).transport_error_count
        = e.transport_error_count +
          (items.countP (fun it => !it.garbage.isEmpty) + (if tg.isEmpty then 0 else 1)) ∧
    ((e.rev_data_push (renderStream e.hdr items tg)).parse_data_task).decode_error_count
        = e.decode_error_count ∧
    ((e.rev_data_push (renderStream e.hdr items tg)).parse_data_task).rx_accum = [] ∧
    ((e.rev_data_push (renderStream e.hdr items tg)).parse_data_task).events
        = e.events ++ items.map (fun it => (it.comp % 256, it.data % 256, it.payload)) ∧
    (∀ g : List Nat, g ≠ [] → (∀ b ∈ g, b ≠ e.hdr) →
      parse_stream e.hdr g = ⟨[], [], 1⟩) ∧
    (∀ (g t : List Nat), g ≠ [] → (∀ b ∈ g, b ≠ e.hdr) →
      parse_stream e.hdr (g ++ e.hdr :: t) =
        ⟨(parse_stream e.hdr (e.hdr :: t)).frames,
          (parse_stream e.hdr (e.hdr :: t)).residual,
          (parse_stream e.hdr (e.hdr :: t)).transport_errors + 1⟩) := by
  set e2 := e.rev_data_push (renderStream e.hdr items tg) with he2
  have he2hdr : e2.hdr = e.hdr := rfl
  have hrx2 : e2.rx_accum = renderStream e2.hdr items tg := by
    show e.rx_accum ++ renderStream e.hdr items tg = _
    rw [hrx, List.nil_append]
    rfl
  have hspec := parse_data_task_spec e2 items tg hrx2
    (fun it hit => (hitems it hit))
    htg
  exact ⟨hspec.1, hspec.2.2.1, hspec.2.1, hspec.2.2.2.1, hspec.2.2.2.2,
    fun g hne hg => parse_stream_garbage_only e.hdr g hne hg,
    fun g t hne hg => parse_stream_garbage_skip e.hdr g t hne hg⟩

theorem C2_witness :
    sampleEngine.rx_accum = [] ∧
    (∀ it ∈ [StreamItem.mk [7, 8] 0 0 2 1 [1, 2, 3, 4], StreamItem.mk [] 1 0 1 1 [5]],
      ItemWF sampleEngine.hdr it ∧
      accepts sampleEngine (it.comp % 256) (it.data % 256) it.payload.length = true) ∧
    (∀ b ∈ [33, 44], b ≠ sampleEngine.hdr) ∧
    ((sampleEngine.rev_data_push (renderStream sampleEngine.hdr
        [StreamItem.mk [7, 8] 0 0 2 1 [1, 2, 3, 4], StreamItem.mk [] 1 0 1 1 [5]]
        [33, 44])).parse_data_task).success_count = sampleEngine.success_count + 2 ∧
    ((sampleEngine.rev_data_push (renderStream sampleEngine.hdr
        [StreamItem.mk [7, 8] 0 0 2 1 [1, 2, 3, 4], StreamItem.mk [] 1 0 1 1 [5]]
        [33, 44])).parse_data_task).transport_error_count =
      sampleEngine.transport_error_count + 2 ∧
    ((sampleEngine.rev_data_push (renderStream sampleEngine.hdr
        [StreamItem.mk [7, 8] 0 0 2 1 [1, 2, 3, 4], StreamItem.mk [] 1 0 1 1 [5]]
        [33, 44])).parse_data_task).rx_accum = [] :=
  have h := C2_resync_transport_errors sampleEngine
    [StreamItem.mk [7, 8] 0 0 2 1 [1, 2, 3, 4], StreamItem.mk [] 1 0 1 1 [5]]
    [33, 44] rfl (by decide) (by decide)
  ⟨rfl, by decide, by decide, h.1, h.2.1, h.2.2.2.1⟩

/-! ### C5 — dispatch error accounting -/

/-- C5: dispatching a correctly framed message whose key is unregistered
counts one decode error and leaves `success_count`, the cached component
state and the callback log unchanged; a registered key whose payload
length differs from the typed decoder's expected size behaves the same;
a successfully dispatched frame steps `success_count` by exactly one and
leaves `decode_error_count` unchanged. -/
theorem C5_dispatch_error_accounting (e : Engine) (comp data : Nat) (p : List Nat) :
    (e.registry comp data = none →
      (e.dispatch comp data p).decode_error_count = e.decode_error_count + 1 ∧
      (e.dispatch comp data p).success_count = e.success_count ∧
      (e.dispatch comp data p).comp_state = e.comp_state ∧
      (e.dispatch comp data p).events = e.events) ∧
    (∀ sz, e.registry comp data = some (.typed sz) → p.length ≠ sz →
      (e.dispatch comp data p).decode_error_count = e.decode_error_count + 1 ∧
      (e.dispatch comp data p).success_count = e.success_count ∧
      (e.dispatch comp data p).comp_state = e.comp_state ∧
      (e.dispatch comp data p).events = e.events) ∧
    (accepts e comp data p.length = true →
      (e.dispatch comp data p).success_count = e.success_count + 1 ∧
      (e.dispatch comp data p).decode_error_count = e.decode_error_count) := by
  refine ⟨?_, ?_, ?_⟩
  · intro h
    rw [dispatch_unregistered e comp data p h]
    exact ⟨rfl, rfl, rfl, rfl⟩
  · intro sz h hne
    rw [dispatch_size_mismatch e comp data sz p h hne]
    exact ⟨rfl, rfl, rfl, rfl⟩
  · intro h
    have hda := dispatch_accepted e comp data p h
    exact ⟨hda.1, hda.2.1⟩

theorem C5_witness :
    sampleEngine.registry 5 5 = none ∧
    (sampleEngine.dispatch 5 5 [1]).decode_error_count =
      sampleEngine.decode_error_count + 1 ∧
    (sampleEngine.dispatch 5 5 [1]).success_count = sampleEngine.success_count ∧
    sampleEngine.registry 2 1 = some (.typed 4) ∧
    ([1, 2, 3] : List Nat).length ≠ 4 ∧
    (sampleEngine.dispatch 2 1 [1, 2, 3]).decode_error_count =
      sampleEngine.decode_error_count + 1 ∧
    (sampleEngine.dispatch 2 1 [1, 2, 3]).success_count = sampleEngine.success_count ∧
    accepts sampleEngine 2 1 ([1, 2, 3, 4] : List Nat).length = true ∧
    (sampleEngine.dispatch 2 1 [1, 2, 3, 4]).success_count =
      sampleEngine.success_count + 1 ∧
    (sampleEngine.dispatch 2 1 [1, 2, 3, 4]).decode_error_count =
      sampleEngine.decode_error_count :=
  have h1 := (C5_dispatch_error_accounting sampleEngine 5 5 [1]).1 (by decide)
  have h2 := (C5_dispatch_error_accounting sampleEngine 2 1 [1, 2, 3]).2.1 4
    (by decide) (by decide)
  have h3 := (C5_dispatch_error_accounting sampleEngine 2 1 [1, 2, 3, 4]).2.2 (by decide)
  ⟨by decide, h1.1, h1.2.1, by decide, by decide, h2.1, h2.2.1, by decide, h3.1, h3.2⟩

/-! ### C6 — send queue bounds -/

/-- C6: a payload of exactly the configured maximum is accepted (given
queue room); one byte more is rejected `PayloadTooLarge` with the engine
untouched; when the byte budget would be exceeded the enqueue is
rejected `QueueFull` with the engine untouched; after a drain the same
previously rejected enqueue is accepted. -/
theorem C6_send_queue_bounds (e : Engine) (c d : Nat) (p q : List Nat) :
    (p.length = e.max_payload → e.queue_bytes + (8 + p.length) ≤ e.max_queue_bytes →
      (e.build_send_data c d p).2 = .accepted) ∧
    (q.length = e.max_payload + 1 →
      (e.build_send_data c d q).2 = .payloadTooLarge ∧ (e.build_send_data c d q).1 = e) ∧
    (p.length ≤ e.max_payload → e.max_queue_bytes < e.queue_bytes + (8 + p.length) →
      (e.build_send_data c d p).2 = .queueFull ∧ (e.build_send_data c d p).1 = e) ∧
    (p.length ≤ e.max_payload → 8 + p.length ≤ e.max_queue_bytes →
      ((e.pop_send_buffer.2).build_send_data c d p).2 = .accepted) := by
  refine ⟨?_, ?_, ?_, ?_⟩
  · intro hp hq
    rw [build_send_data_accepted e c d p (by omega) hq]
  · intro hq
    unfold Engine.build_send_data
    rw [if_pos (by omega)]
    exact ⟨rfl, rfl⟩
  · intro hp hq
    unfold Engine.build_send_data
    rw [if_neg (by omega)]
    dsimp only
    rw [if_pos (by rw [encode_length]; omega)]
    exact ⟨rfl, rfl⟩
  · intro hp hq
    rw [build_send_data_accepted (e.pop_send_buffer.2) c d p hp
      (by
        show Engine.queue_bytes (e.pop_send_buffer.2) + (8 + p.length) ≤ e.max_queue_bytes
        rw [show Engine.queue_bytes (e.pop_send_buffer.2) = 0 from rfl]
        omega)]

set_option maxRecDepth 4000 in
theorem C6_witness :
    (List.replicate 64 (0 : Nat)).length = sampleEngine.max_payload ∧
    sampleEngine.queue_bytes + (8 + (List.replicate 64 (0 : Nat)).length) ≤
      sampleEngine.max_queue_bytes ∧
    (sampleEngine.build_send_data 1 1 (List.replicate 64 0)).2 = .accepted ∧
    (List.replicate 65 (0 : Nat)).length = sampleEngine.max_payload + 1 ∧
    (sampleEngine.build_send_data 1 1 (List.replicate 65 0)).2 = .payloadTooLarge ∧
    (sampleEngine.build_send_data 1 1 (List.replicate 65 0)).1 = sampleEngine ∧
    (({ sampleEngine with send_queue := [List.replicate 250 0] } : Engine).build_send_data
        1 1 [1, 2, 3]).2 = .queueFull ∧
    (({ sampleEngine with send_queue := [List.replicate 250 0] } : Engine).build_send_data
        1 1 [1, 2, 3]).1 = { sampleEngine with send_queue := [List.replicate 250 0] } ∧
    ((({ sampleEngine with send_queue := [List.replicate 250 0] } : Engine).pop_send_buffer.2).build_send_data
        1 1 [1, 2, 3]).2 = .accepted :=
  have h1 := C6_send_queue_bounds sampleEngine 1 1 (List.replicate 64 0) (List.replicate 65 0)
  have h2 := C6_send_queue_bounds { sampleEngine with send_queue := [List.replicate 250 0] }
    1 1 [1, 2, 3] []
  have hfull := h2.2.2.1 (by decide) (by decide)
  ⟨by decide, by decide, h1.1 (by decide) (by decide), by decide,
    (h1.2.1 (by decide)).1, (h1.2.1 (by decide)).2,
    hfull.1, hfull.2, h2.2.2.2 (by decide) (by decide)⟩

/-! ### C7 — drain semantics -/

/-- C7: `pop_send_buffer` removes and returns all queued bytes in FIFO
enqueue order (an accepted enqueue appends its encoded frame at the
tail), an empty queue yields empty output, a second drain with no
intervening enqueue yields empty output, and the returned bytes are
always a concatenation of whole encoded frames. -/
theorem C7_drain_semantics (e : Engine) (c d : Nat) (p : List Nat) :
    e.pop_send_buffer.1 = e.send_queue.flatten ∧
    e.pop_send_buffer.2.send_queue = [] ∧
    (e.send_queue = [] → e.pop_send_buffer.1 = []) ∧
    (e.pop_send_buffer.2).pop_send_buffer.1 = [] ∧
    ((e.build_send_data c d p).2 = .accepted →
      (e.build_send_data c d p).1.send_queue =
        e.send_queue ++ [encode e.hdr e.seq_id c d 0 p]) ∧
    ((∀ fr ∈ e.send_queue, IsEncodedFrame e.hdr fr) →
      ∃ l : List (List Nat), (∀ fr ∈ l, IsEncodedFrame e.hdr fr) ∧ e.pop_send_buffer.1 = l.flatten) ∧
    ((∀ fr ∈ e.send_queue, IsEncodedFrame e.hdr fr) →
      ∀ fr ∈ (e.build_send_data c d p).1.send_queue, IsEncodedFrame e.hdr fr) := by
  refine ⟨rfl, rfl, ?_, rfl, ?_, ?_, ?_⟩
  · intro h
    show e.send_queue.flatten = []
    rw [h]
    rfl
  · intro hacc
    unfold Engine.build_send_data at hacc ⊢
    by_cases h1 : e.max_payload < p.length
    · rw [if_pos h1] at hacc
      exact absurd hacc (by simp)
    · rw [if_neg h1] at hacc ⊢
      dsimp only at hacc ⊢
      by_cases h2 : e.max_queue_bytes <
          e.queue_bytes + (encode e.hdr e.seq_id c d 0 p).length
      · rw [if_pos h2] at hacc
        exact absurd hacc (by simp)
      · rw [if_neg h2]
  · intro h
    exact ⟨e.send_queue, h, rfl⟩
  · intro h fr hfr
    unfold Engine.build_send_data at hfr
    by_cases h1 : e.max_payload < p.length
    · rw [if_pos h1] at hfr
      exact h fr hfr
    · rw [if_neg h1] at hfr
      dsimp only at hfr
      by_cases h2 : e.max_queue_bytes <
          e.queue_bytes + (encode e.hdr e.seq_id c d 0 p).length
      · rw [if_pos h2] at hfr
        exact h fr hfr
      · rw [if_neg h2] at hfr
        rcases List.mem_append.1 hfr with hfr | hfr
        · exact h fr hfr
        · rw [List.mem_singleton] at hfr
          exact ⟨e.seq_id, c, d, 0, p, hfr⟩

theorem C7_witness :
    (({ sampleEngine with send_queue := [encode 170 0 1 1 0 [5]] } : Engine).pop_send_buffer.1 =
      ([encode 170 0 1 1 0 [5]] : List (List Nat)).flatten) ∧
    ({ sampleEngine with send_queue := [encode 170 0 1 1 0 [5]] } : Engine).pop_send_buffer.2.send_queue = [] ∧
    (({ sampleEngine with send_queue := [encode 170 0 1 1 0 [5]] } : Engine).pop_send_buffer.2).pop_send_buffer.1 = [] ∧
    (({ sampleEngine with send_queue := [encode 170 0 1 1 0 [5]] } : Engine).build_send_data 2 1 [1, 2, 3, 4]).2
      = .accepted ∧
    (({ sampleEngine with send_queue := [encode 170 0 1 1 0 [5]] } : Engine).build_send_data 2 1 [1, 2, 3, 4]).1.send_queue =
      [encode 170 0 1 1 0 [5]] ++ [encode 170 0 2 1 0 [1, 2, 3, 4]] ∧
    (∃ l : List (List Nat), (∀ fr ∈ l, IsEncodedFrame 170 fr) ∧
      ({ sampleEngine with send_queue := [encode 170 0 1 1 0 [5]] } : Engine).pop_send_buffer.1 = l.flatten) :=
  have h := C7_drain_semantics { sampleEngine with send_queue := [encode 170 0 1 1 0 [5]] }
    2 1 [1, 2, 3, 4]
  have hwf : ∀ fr ∈ ({ sampleEngine with send_queue := [encode 170 0 1 1 0 [5]] } :
      Engine).send_queue, IsEncodedFrame 170 fr := by
    intro fr hfr
    rw [List.mem_singleton] at hfr
    exact ⟨0, 1, 1, 0, [5], hfr⟩
  ⟨h.1, h.2.1, h.2.2.2.1, by decide, h.2.2.2.2.1 (by decide), h.2.2.2.2.2.1 hwf⟩

/-! ### C8 — counter monotonicity -/

/-- C8: over any sequence of engine-boundary operations — byte pushes,
parse passes, enqueues, drains, registrations — none of `success_count`,
`transport_error_count` or `decode_error_count` ever decreases; no
operation resets them. -/
theorem C8_counter_monotonicity (e : Engine) (ops : List Op) :
    e.success_count ≤ (applyOps e ops).success_count ∧
    e.transport_error_count ≤ (applyOps e ops).transport_error_count ∧
    e.decode_error_count ≤ (applyOps e ops).decode_error_count := by
  induction ops generalizing e with
  | nil => exact ⟨le_refl _, le_refl _, le_refl _⟩
  | cons op ops ih =>
    have h1 := applyOp_counters_mono e op
    have h2 := ih (applyOp e op)
    have hstep : applyOps e (op :: ops) = applyOps (applyOp e op) ops := rfl
    rw [hstep]
    exact ⟨le_trans h1.1 h2.1, le_trans h1.2.1 h2.2.1, le_trans h1.2.2 h2.2.2⟩

end UnifyLink
